import Mathlib

/-!
Verification of the laitest front-end generation/normalization engine.

Shallow embedding of `src/app.js` (first script copy, the one carrying
`normalizeTestCase` / `normalizeLegacySteps` / `generate`), over a model of
JavaScript values as produced by `JSON.parse` plus the `undefined` value.

The embedding follows the source line by line:
* property access `a.b` is fallible — it fails (models a thrown `TypeError`)
  exactly when the receiver is `null` or `undefined`;
* `String(v)`, `Number(v)`, `Boolean(v)`, `||` and `.trim()` are modelled by
  `jsToString`, `jsToNumber`, `jsTruthy`, `jsOr` and `jsTrim`;
* JavaScript numbers are modelled as rationals extended with `NaN` and the
  two infinities (every number reachable here is a finite decimal).
-/

set_option autoImplicit false

namespace Laitest

/-- JavaScript numbers: `NaN`, `Infinity`, `-Infinity`, or a finite value
(modelled as a rational; all values reachable in this program are finite
decimals). -/
inductive JNum where
  | nan
  | inf
  | negInf
  | val (q : Rat)
deriving DecidableEq, Repr

/-- JavaScript values as they appear in this program: everything `JSON.parse`
can produce, plus `undefined`. -/
inductive JVal where
  | null
  | undefined
  | bool (b : Bool)
  | num (n : JNum)
  | str (s : String)
  | arr (elems : List JVal)
  | obj (fields : List (String × JVal))
deriving Repr

/-- The ECMAScript `WhiteSpace ∪ LineTerminator` set used by
`String.prototype.trim`. -/
def isJsWhitespace (c : Char) : Bool :=
  let n := c.toNat
  n == 32 || n == 9 || n == 10 || n == 13 || n == 11 || n == 12 ||
  n == 0xA0 || n == 0x1680 ||
  (decide (0x2000 ≤ n) && decide (n ≤ 0x200A)) ||
  n == 0x2028 || n == 0x2029 || n == 0x202F || n == 0x205F ||
  n == 0x3000 || n == 0xFEFF

/-- Trim on the character list: strip leading and trailing JS whitespace. -/
def jsTrimList (l : List Char) : List Char :=
  ((l.dropWhile isJsWhitespace).reverse.dropWhile isJsWhitespace).reverse

/-- The `s.trim()` operation: strip leading and trailing JS whitespace. -/
def jsTrim (s : String) : String :=
  String.mk (jsTrimList s.data)

/-- JavaScript truthiness (`Boolean(v)`, `if (v)`, `v ? _ : _`, `!v`). -/
def jsTruthy : JVal → Bool
  | .null => false
  | .undefined => false
  | .bool b => b
  | .num .nan => false
  | .num .inf => true
  | .num .negInf => true
  | .num (.val q) => q != 0
  | .str s => s != ""
  | .arr _ => true
  | .obj _ => true

/-- The value of `a || b`. -/
def jsOr (a b : JVal) : JVal := if jsTruthy a then a else b

/-- Whether `typeof v === "object"`: true for `null`, arrays and plain objects. -/
def jsTypeofIsObject : JVal → Bool
  | .null => true
  | .arr _ => true
  | .obj _ => true
  | _ => false

/-- The predicate of the step filters `x && typeof x === "object"`:
a truthy value whose `typeof` is `"object"` (an array or a plain object). -/
def jsIsTruthyObject (v : JVal) : Bool := jsTruthy v && jsTypeofIsObject v

/-- First binding of `key` in an association list. -/
def objFind : List (String × JVal) → String → Option JVal
  | [], _ => none
  | (k, v) :: rest, key => if k == key then some v else objFind rest key

/-- Object property lookup: the last binding wins (as for duplicate keys in
`JSON.parse` / object literals); a missing property reads as `undefined`. -/
def objLookup (fields : List (String × JVal)) (key : String) : JVal :=
  (objFind fields.reverse key).getD .undefined

/-- Property access `v[key]`. Fails (`none` — a thrown `TypeError`) exactly
when the receiver is `null` or `undefined`; on a primitive or an array the
named properties used by this program read as `undefined`. -/
def jsGet : JVal → String → Option JVal
  | .null, _ => none
  | .undefined, _ => none
  | .obj fields, key => some (objLookup fields key)
  | _, _ => some .undefined

/-- Total property access, used only where the receiver is known not to be
`null`/`undefined` (so it agrees with `jsGet`). -/
def jsGetT (v : JVal) (key : String) : JVal := (jsGet v key).getD .undefined

/-- Decimal digits to a natural number. -/
def digitsToNat (l : List Char) : Nat :=
  l.foldl (fun acc c => 10 * acc + (c.toNat - 48)) 0

/-- Value of one digit in radix `r` (used for `0x` / `0o` / `0b` literals). -/
def radixDigitVal (r : Nat) (c : Char) : Option Nat :=
  let d :=
    if c.isDigit then some (c.toNat - 48)
    else if decide (97 ≤ c.toNat) && decide (c.toNat ≤ 102) then some (c.toNat - 87)
    else if decide (65 ≤ c.toNat) && decide (c.toNat ≤ 70) then some (c.toNat - 55)
    else none
  match d with
  | some d => if d < r then some d else none
  | none => none

/-- Parse the digit body of a `0x`/`0o`/`0b` numeric string. -/
def parseRadix (r : Nat) (body : List Char) : JNum :=
  if body = [] then .nan
  else
    match body.foldl
        (fun acc c =>
          match acc, radixDigitVal r c with
          | some n, some d => some (r * n + d)
          | _, _ => none)
        (some 0) with
    | some n => .val n
    | none => .nan

/-- Parse an unsigned decimal literal `digits [. digits] [e[±]digits]`
(at least one digit before or after the point). -/
def parseDecCore (l : List Char) : Option Rat :=
  let ip := l.takeWhile (·.isDigit)
  let rest := l.dropWhile (·.isDigit)
  let fp : List Char :=
    match rest with
    | '.' :: r => r.takeWhile (·.isDigit)
    | _ => []
  let rest2 : List Char :=
    match rest with
    | '.' :: r => r.dropWhile (·.isDigit)
    | _ => rest
  if ip = [] ∧ fp = [] then none
  else
    let mant : Rat := (digitsToNat ip : Rat) + (digitsToNat fp : Rat) / ((10 : Rat) ^ fp.length)
    match rest2 with
    | [] => some mant
    | c :: r =>
      if c == 'e' || c == 'E' then
        let eneg : Bool := match r with | '-' :: _ => true | _ => false
        let r2 : List Char := match r with | '+' :: t => t | '-' :: t => t | _ => r
        let ed := r2.takeWhile (·.isDigit)
        let rest3 := r2.dropWhile (·.isDigit)
        if ed = [] ∨ rest3 ≠ [] then none
        else some (if eneg then mant / (10 : Rat) ^ digitsToNat ed
                   else mant * (10 : Rat) ^ digitsToNat ed)
      else none

/-- ECMAScript string-to-number (`Number(string)`): trim, empty ↦ 0,
`Infinity` forms, radix prefixes, else a signed decimal literal, else `NaN`. -/
def strToNumber (s : String) : JNum :=
  let t := jsTrim s
  if t = "" then .val 0
  else if t = "Infinity" ∨ t = "+Infinity" then .inf
  else if t = "-Infinity" then .negInf
  else if t.startsWith "0x" || t.startsWith "0X" then parseRadix 16 (t.drop 2).data
  else if t.startsWith "0o" || t.startsWith "0O" then parseRadix 8 (t.drop 2).data
  else if t.startsWith "0b" || t.startsWith "0B" then parseRadix 2 (t.drop 2).data
  else
    match t.data with
    | '-' :: r => (match parseDecCore r with | some q => .val (-q) | none => .nan)
    | '+' :: r => (match parseDecCore r with | some q => .val q | none => .nan)
    | l => (match parseDecCore l with | some q => .val q | none => .nan)

/-- Fractional digits of `num/den` (den ≠ 0), with enough fuel for any finite
decimal reachable here. -/
def fracDigitsAux : Nat → Nat → Nat → String
  | 0, _, _ => ""
  | fuel + 1, num, den =>
    if num = 0 then ""
    else
      let n10 := num * 10
      toString (n10 / den) ++ fracDigitsAux fuel (n10 % den) den

/-- Decimal rendering of a finite JS number (integers print with no point). -/
def ratToString (q : Rat) : String :=
  if q.den = 1 then toString q.num
  else
    (if q < 0 then "-" else "") ++
      toString (q.num.natAbs / q.den) ++ "." ++
      fracDigitsAux 1200 (q.num.natAbs % q.den) q.den

/-- Rendering `String(n)` of a JS number. -/
def jsNumToString : JNum → String
  | .nan => "NaN"
  | .inf => "Infinity"
  | .negInf => "-Infinity"
  | .val q => ratToString q

mutual

/-- ECMAScript `String(v)`. -/
def jsToString : JVal → String
  | .null => "null"
  | .undefined => "undefined"
  | .bool b => if b then "true" else "false"
  | .num n => jsNumToString n
  | .str s => s
  | .arr xs => arrToStringBody xs
  | .obj _ => "[object Object]"

/-- Model of `Array.prototype.toString`: elements joined by `","`, with `null` and
`undefined` elements rendered as the empty string. -/
def arrToStringBody : List JVal → String
  | [] => ""
  | x :: xs =>
    (match x with
     | .null => ""
     | .undefined => ""
     | v => jsToString v) ++
    (match xs with
     | [] => ""
     | _ => "," ++ arrToStringBody xs)

end

/-- ECMAScript `Number(v)`. -/
def jsToNumber : JVal → JNum
  | .null => .val 0
  | .undefined => .nan
  | .bool b => .val (if b then 1 else 0)
  | .num n => n
  | .str s => strToNumber s
  | .arr xs => strToNumber (jsToString (.arr xs))
  | .obj _ => .nan

/-! ## The data model of `app.js` (`src/app.js:72-122`, `198-223`) -/

/-- A normalized step record, as built by `normalizeTestCase` /
`normalizeLegacySteps` (`src/app.js:82-87`, `95-100`). -/
structure Step where
  step_no : JNum
  action : String
  test_data : String
  expected_result : String
deriving DecidableEq, Repr

/-- The canonical `TestCaseSuggestion` record returned by `normalizeTestCase`
(`src/app.js:106-121`). -/
structure TestCaseSuggestion where
  case_id : String
  title : String
  module : String
  priority : String
  type : String
  preconditions : List String
  steps : List Step
  expected_result : String
  automation_candidate : Bool
  description : String
  tags : List String
  kind : String
deriving DecidableEq, Repr

/-- Indexed map, `.map((x, i) => f(i, x))` starting the index at `i0`. -/
def mapIdxFrom {α β : Type} (f : Nat → α → β) : Nat → List α → List β
  | _, [] => []
  | i, x :: xs => f i x :: mapIdxFrom f (i + 1) xs

/-- One canonical-schema step at (object-filtered) index `i`
(`src/app.js:95-100`):
`{ step_no: Number(x.step_no || i + 1), action: String(x.action || "").trim(),
   test_data: ..., expected_result: ... }`. -/
def mkCanonStep (i : Nat) (x : JVal) : Step :=
  { step_no := jsToNumber (jsOr (jsGetT x "step_no") (.num (.val ((i + 1 : Nat) : Rat))))
  , action := jsTrim (jsToString (jsOr (jsGetT x "action") (.str "")))
  , test_data := jsTrim (jsToString (jsOr (jsGetT x "test_data") (.str "")))
  , expected_result := jsTrim (jsToString (jsOr (jsGetT x "expected_result") (.str ""))) }

/-- The canonical-schema step list of `normalizeTestCase` (`src/app.js:92-102`)
as a function of the value of `tc.steps`: if it is an array, keep the truthy
object-shaped rows, build `mkCanonStep` over them, then drop steps whose
trimmed action is empty; otherwise the empty list. -/
def canonicalStepsOf (v : JVal) : List Step :=
  match v with
  | .arr rows =>
    (mapIdxFrom mkCanonStep 0 (rows.filter jsIsTruthyObject)).filter
      (fun s => s.action != "")
  | _ => []

/-- One legacy step at (object-filtered) index `i` (`src/app.js:82-87`):
`{ step_no: i + 1, action: String(x.message || x.type || "step"),
   test_data: "", expected_result: "" }`. -/
def legacyStep (i : Nat) (x : JVal) : Step :=
  { step_no := .val ((i + 1 : Nat) : Rat)
  , action := jsToString (jsOr (jsOr (jsGetT x "message") (jsGetT x "type")) (.str "step"))
  , test_data := ""
  , expected_result := "" }

/-- Embedding of `normalizeLegacySteps(spec)` (`src/app.js:72-88`). The `spec` argument is
`item.spec`, already read by the caller; the guards `!spec`,
`typeof spec !== "object"` and `Array.isArray(rows)` make the body total. -/
def normalizeLegacySteps (spec : JVal) : List Step :=
  if jsTruthy spec && jsTypeofIsObject spec then
    match jsGetT spec "steps" with
    | .arr rows => mapIdxFrom legacyStep 0 (rows.filter jsIsTruthyObject)
    | _ => []
  else []

/-- The `tc` binding of `normalizeTestCase` (`src/app.js:91`):
`item && typeof item.test_case === "object" ? item.test_case : {}`.
Reading `item.test_case` cannot throw here because it only happens when
`item` is truthy (hence not `null`/`undefined`). Note `typeof null` is
`"object"`, so `tc` can be `null`. -/
def tcOf (item : JVal) : JVal :=
  if jsTruthy item then
    let v := jsGetT item "test_case"
    if jsTypeofIsObject v then v else .obj []
  else .obj []

/-- The coercion `Array.isArray(v) ? v.map((x) => String(x)).filter(Boolean) : []`
(used for `preconditions` and `tags`, `src/app.js:112-114`, `119`). -/
def strListOf (v : JVal) : List String :=
  match v with
  | .arr xs => (xs.map jsToString).filter (fun s => s != "")
  | _ => []

/-- The record literal of `normalizeTestCase` (`src/app.js:106-121`), given the
already-read values `sr = tc.steps` and `sp = item.spec`. All remaining
property reads use the total accessor: at this point `tc` is an array or a
plain object (its `steps` read succeeded) and `item` is not
`null`/`undefined` (its `spec` read succeeded), so no further read throws. -/
def mkRecord (item : JVal) (idx : Nat) (sr sp : JVal) : TestCaseSuggestion :=
  let tc := tcOf item
  let steps := canonicalStepsOf sr
  let fallbackSteps := normalizeLegacySteps sp
  { case_id := jsToString (jsOr (jsGetT tc "case_id") (.str ("TC-GEN-" ++ toString (idx + 1))))
  , title := jsToString (jsOr (jsOr (jsGetT tc "title") (jsGetT item "title"))
      (.str ("用例 " ++ toString (idx + 1))))
  , module := jsToString (jsOr (jsGetT tc "module") (.str "general"))
  , priority := jsToString (jsOr (jsGetT tc "priority") (.str "P1"))
  , type := jsToString (jsOr (jsGetT tc "type") (.str "functional"))
  , preconditions := strListOf (jsGetT tc "preconditions")
  , steps := if steps.length != 0 then steps else fallbackSteps
  , expected_result := jsToString (jsOr (jsGetT tc "expected_result") (.str ""))
  , automation_candidate := jsTruthy (jsGetT tc "automation_candidate")
  , description := jsToString (jsOr (jsGetT item "description") (.str ""))
  , tags := strListOf (jsGetT item "tags")
  , kind := jsToString (jsOr (jsGetT item "kind") (.str "demo")) }

/-- Embedding of `normalizeTestCase(item, idx)` (`src/app.js:90-122`). The two fallible
property reads are `tc.steps` (line 92 — throws when `item.test_case` is
`null`) and `item.spec` (line 104 — throws when `item` is `null` or
`undefined`); `none` models the thrown `TypeError`. -/
def normalizeTestCase (item : JVal) (idx : Nat) : Option TestCaseSuggestion :=
  match jsGet (tcOf item) "steps", jsGet item "spec" with
  | some sr, some sp => some (mkRecord item idx sr sp)
  | _, _ => none

/-- Injection of a canonical record back into a JS value (the shape
`JSON.parse(JSON.stringify(record))` would give). -/
def stepToJVal (s : Step) : JVal :=
  .obj [("step_no", .num s.step_no), ("action", .str s.action),
        ("test_data", .str s.test_data), ("expected_result", .str s.expected_result)]

/-- Injection of a `TestCaseSuggestion` back into a JS value. -/
def tcsToJVal (r : TestCaseSuggestion) : JVal :=
  .obj [ ("case_id", .str r.case_id)
       , ("title", .str r.title)
       , ("module", .str r.module)
       , ("priority", .str r.priority)
       , ("type", .str r.type)
       , ("preconditions", .arr (r.preconditions.map .str))
       , ("steps", .arr (r.steps.map stepToJVal))
       , ("expected_result", .str r.expected_result)
       , ("automation_candidate", .bool r.automation_candidate)
       , ("description", .str r.description)
       , ("tags", .arr (r.tags.map .str))
       , ("kind", .str r.kind) ]

/-- What one application of `normalizeTestCase` to the (flat) canonical record
produces: the outer-sourced fields survive, every `test_case`-sourced field is
reset to its default because the flat record has no nested `test_case`. -/
def renorm (idx : Nat) (r : TestCaseSuggestion) : TestCaseSuggestion :=
  { case_id := "TC-GEN-" ++ toString (idx + 1)
  , title := if r.title = "" then "用例 " ++ toString (idx + 1) else r.title
  , module := "general"
  , priority := "P1"
  , type := "functional"
  , preconditions := []
  , steps := []
  , expected_result := ""
  , automation_candidate := false
  , description := r.description
  , tags := r.tags.filter (fun s => s != "")
  , kind := if r.kind = "" then "demo" else r.kind }

/-! ## The `generate` entry point (`src/app.js:198-223`) -/

/-- The mutable UI state touched by `generate` (`src/app.js:26-30`, plus the
`aiStatus` DOM node written by `setStatus`). -/
structure UIState where
  busy : Bool
  showRaw : Bool
  lastOutput : Option JVal
  statusText : String
  statusKind : String

/-- The JSON body `generate` posts to `/api/ai/generate_cases`
(`src/app.js:210-213`). -/
structure GenerateRequestBody where
  prompt : String
  create : Bool
deriving DecidableEq, Repr

/-- The synchronous prefix of `generate()` (`src/app.js:198-214`), up to the
point where the network request is (or is not) issued: trim the prompt; if it
is empty, set the error status and return with no request; otherwise set the
busy flag and the progress status and issue the request body. -/
def generate (s : UIState) (promptRaw : String) : UIState × Option GenerateRequestBody :=
  let prompt := jsTrim promptRaw
  if prompt = "" then
    ({ s with statusText := "请输入需求文本后再生成。", statusKind := "err" }, none)
  else
    ({ s with busy := true, statusText := "正在调用 AI 生成...", statusKind := "" },
     some { prompt := prompt, create := false })

/-! ## Concrete inputs used by scenarios, witnesses and counterexamples -/

/-- The fully-default record `normalizeTestCase` produces at index `idx` when
no usable field is present. -/
def defaultRecAt (idx : Nat) : TestCaseSuggestion :=
  { case_id := "TC-GEN-" ++ toString (idx + 1)
  , title := "用例 " ++ toString (idx + 1)
  , module := "general"
  , priority := "P1"
  , type := "functional"
  , preconditions := []
  , steps := []
  , expected_result := ""
  , automation_candidate := false
  , description := ""
  , tags := []
  , kind := "demo" }

/-- A suggestion whose only canonical step carries `step_no: 5`. -/
def c2Item : JVal :=
  .obj [("test_case", .obj [("steps",
    .arr [.obj [("step_no", .num (.val 5)), ("action", .str "a")]])])]

/-- What `normalizeTestCase c2Item 0` returns. -/
def c2Rec : TestCaseSuggestion :=
  { defaultRecAt 0 with
    steps := [{ step_no := .val 5, action := "a", test_data := "", expected_result := "" }] }

/-- A legacy-only suggestion whose single legacy step has `type: "tap"`. -/
def c2wItem : JVal :=
  .obj [("spec", .obj [("steps", .arr [.obj [("type", .str "tap")]])])]

/-- What `normalizeTestCase c2wItem 0` returns. -/
def c2wRec : TestCaseSuggestion :=
  { defaultRecAt 0 with
    steps := [{ step_no := .val 1, action := "tap", test_data := "", expected_result := "" }] }

/-- A suggestion with a nested `case_id`, used to exhibit field drift on
re-normalization. -/
def c3Item : JVal := .obj [("test_case", .obj [("case_id", .str "X")])]

/-- The legacy-shaped payload of the spec scenario:
`spec.steps = [{type:"tap"}]` and no current-schema steps. -/
def c5Item : JVal :=
  .obj [("spec", .obj [("steps", .arr [.obj [("type", .str "tap")]])])]

/-- What `normalizeTestCase c5Item 0` returns. -/
def c5Rec : TestCaseSuggestion :=
  { defaultRecAt 0 with
    steps := [{ step_no := .val 1, action := "tap", test_data := "", expected_result := "" }] }

/-- A suggestion carrying both a non-empty canonical step list and a legacy
step list; the legacy one must be ignored. -/
def c7Item : JVal :=
  .obj [ ("test_case", .obj [("steps", .arr [.obj [("action", .str "a")]])])
       , ("spec", .obj [("steps", .arr [.obj [("type", .str "tap")]])]) ]

/-- What `normalizeTestCase c7Item 0` returns. -/
def c7Rec : TestCaseSuggestion :=
  { defaultRecAt 0 with
    steps := [{ step_no := .val 1, action := "a", test_data := "", expected_result := "" }] }

/-- A legacy-only suggestion whose single legacy step has the whitespace-only
`message: " "`. -/
def c8Item : JVal :=
  .obj [("spec", .obj [("steps", .arr [.obj [("message", .str " ")]])])]

/-- What `normalizeTestCase c8Item 0` returns: the whitespace action survives. -/
def c8Rec : TestCaseSuggestion :=
  { defaultRecAt 0 with
    steps := [{ step_no := .val 1, action := " ", test_data := "", expected_result := "" }] }

/-- A suggestion with canonical steps whose actions need trimming/dropping. -/
def c8wItem : JVal :=
  .obj [("test_case", .obj [("steps",
    .arr [.obj [("action", .str " a ")], .obj [("action", .str "  ")]])])]

/-- A suggestion whose nested `test_case` carries a `description` competing
with the outer one, plus outer `tags` and `kind`. -/
def c9Item : JVal :=
  .obj [ ("test_case", .obj [("description", .str "inner")])
       , ("description", .str "outer")
       , ("tags", .arr [.str "t", .str "", .num (.val 3)])
       , ("kind", .str "k") ]

/-- What `normalizeTestCase c9Item 0` returns. -/
def c9Rec : TestCaseSuggestion :=
  { defaultRecAt 0 with description := "outer", tags := ["t", "3"], kind := "k" }

/-- A canonical step row carrying an out-of-position truthy `step_no`. -/
def c10Row : JVal := .obj [("step_no", .num (.val 7)), ("action", .str "a")]

/-- A canonical steps array with `c10Row` as its only row. -/
def c10Rows : List JVal := [c10Row]

/-- What `normalizeTestCase c3Item 0` returns. -/
def c3Rec : TestCaseSuggestion := { defaultRecAt 0 with case_id := "X" }

/-- What `normalizeTestCase c8wItem 0` returns: the first action is trimmed to
`"a"`, the all-whitespace second action is dropped. -/
def c8wRec : TestCaseSuggestion :=
  { defaultRecAt 0 with
    steps := [{ step_no := .val 1, action := "a", test_data := "", expected_result := "" }] }

/-! ## Helper lemmas -/

theorem getElem?_mapIdxFrom {α β : Type} (f : Nat → α → β) (i k : Nat) (l : List α) :
    (mapIdxFrom f i l)[k]? = (l[k]?).map (f (i + k)) := by
  induction l generalizing i k with
  | nil => simp [mapIdxFrom]
  | cons x xs ih =>
    cases k with
    | zero => simp [mapIdxFrom]
    | succ k =>
      have h1 : i + (k + 1) = (i + 1) + k := by omega
      simp only [mapIdxFrom, List.getElem?_cons_succ, h1]
      exact ih (i + 1) k

theorem mem_mapIdxFrom {α β : Type} {f : Nat → α → β} {i : Nat} {l : List α} {b : β}
    (h : b ∈ mapIdxFrom f i l) : ∃ j a, a ∈ l ∧ b = f j a := by
  induction l generalizing i with
  | nil => simp [mapIdxFrom] at h
  | cons x xs ih =>
    simp only [mapIdxFrom, List.mem_cons] at h
    rcases h with h | h
    · exact ⟨i, x, List.mem_cons_self x xs, h⟩
    · obtain ⟨j, a, ha, hb⟩ := ih h
      exact ⟨j, a, List.mem_cons_of_mem x ha, hb⟩

theorem exists_dropWhile_decomp {α : Type} (p : α → Bool) (l : List α) :
    ∃ t, l = t ++ l.dropWhile p := by
  induction l with
  | nil => exact ⟨[], rfl⟩
  | cons x xs ih =>
    cases hx : p x with
    | false => exact ⟨[], by simp [List.dropWhile_cons, hx]⟩
    | true =>
      obtain ⟨t, ht⟩ := ih
      exact ⟨x :: t, by simp only [List.dropWhile_cons, hx, if_true, List.cons_append]
                        exact congrArg (x :: ·) ht⟩

theorem dropWhile_eq_cons_head_false {α : Type} (p : α → Bool) (l : List α) (a : α)
    (t : List α) (h : l.dropWhile p = a :: t) : p a = false := by
  induction l with
  | nil => simp [List.dropWhile] at h
  | cons x xs ih =>
    rw [List.dropWhile_cons] at h
    cases hx : p x with
    | true => rw [hx] at h; simp at h; exact ih h
    | false =>
      rw [hx] at h
      simp at h
      obtain ⟨h1, _⟩ := h
      subst h1
      exact hx

theorem dropWhile_jsTrimList (l : List Char) :
    (jsTrimList l).dropWhile isJsWhitespace = jsTrimList l := by
  obtain ⟨t, ht⟩ := exists_dropWhile_decomp isJsWhitespace (l.dropWhile isJsWhitespace).reverse
  cases he : jsTrimList l with
  | nil => simp
  | cons c e' =>
    have h1 : l.dropWhile isJsWhitespace = jsTrimList l ++ t.reverse := by
      have h2 := congrArg List.reverse ht
      simpa [jsTrimList] using h2
    have hd : l.dropWhile isJsWhitespace = c :: (e' ++ t.reverse) := by
      rw [h1, he]; simp
    have hc : isJsWhitespace c = false := dropWhile_eq_cons_head_false _ l c _ hd
    rw [List.dropWhile_cons, hc, if_neg (by simp)]

theorem jsTrimList_idem (l : List Char) : jsTrimList (jsTrimList l) = jsTrimList l := by
  have h2 : (jsTrimList l).reverse =
      ((l.dropWhile isJsWhitespace).reverse).dropWhile isJsWhitespace := by
    simp [jsTrimList]
  calc jsTrimList (jsTrimList l)
      = (((jsTrimList l).dropWhile isJsWhitespace).reverse.dropWhile isJsWhitespace).reverse :=
        rfl
    _ = ((jsTrimList l).reverse.dropWhile isJsWhitespace).reverse := by
        rw [dropWhile_jsTrimList]
    _ = jsTrimList l := by
        rw [h2, List.dropWhile_idempotent]
        simp [jsTrimList]

theorem jsTrim_idem (s : String) : jsTrim (jsTrim s) = jsTrim s := by
  unfold jsTrim
  rw [show (String.mk (jsTrimList s.data)).data = jsTrimList s.data from rfl, jsTrimList_idem]

theorem jsOr_undef (v : JVal) : jsOr .undefined v = v := rfl

theorem jsGetT_eq_of_jsGet {v : JVal} {k : String} {w : JVal} (h : jsGet v k = some w) :
    jsGetT v k = w := by simp [jsGetT, h]

theorem normalizeTestCase_eq_some {item : JVal} {idx : Nat} {rec : TestCaseSuggestion}
    (h : normalizeTestCase item idx = some rec) :
    ∃ sr sp, jsGet (tcOf item) "steps" = some sr ∧ jsGet item "spec" = some sp ∧
      rec = mkRecord item idx sr sp := by
  unfold normalizeTestCase at h
  cases h1 : jsGet (tcOf item) "steps" <;> cases h2 : jsGet item "spec" <;>
    rw [h1, h2] at h <;> simp only [Option.some.injEq, reduceCtorEq] at h
  exact ⟨_, _, rfl, rfl, h.symm⟩

theorem steps_of_mkRecord (item : JVal) (idx : Nat) (sr sp : JVal) :
    (mkRecord item idx sr sp).steps =
      if (canonicalStepsOf sr).length != 0 then canonicalStepsOf sr
      else normalizeLegacySteps sp := rfl

theorem action_of_mem_canonical {sr : JVal} {s : Step} (h : s ∈ canonicalStepsOf sr) :
    s.action ≠ "" ∧ jsTrim s.action = s.action := by
  cases sr
  case arr rows =>
    simp only [canonicalStepsOf] at h
    have h1 := List.of_mem_filter h
    have h2 := List.mem_of_mem_filter h
    obtain ⟨j, x, hx, rfl⟩ := mem_mapIdxFrom h2
    refine ⟨by simpa using h1, ?_⟩
    simp only [mkCanonStep]
    exact jsTrim_idem _
  all_goals simp [canonicalStepsOf] at h

theorem steps_eq_canonical_or_legacy (item : JVal) (idx : Nat) (sr sp : JVal) :
    (canonicalStepsOf sr ≠ [] ∧ (mkRecord item idx sr sp).steps = canonicalStepsOf sr) ∨
    (canonicalStepsOf sr = [] ∧ (mkRecord item idx sr sp).steps = normalizeLegacySteps sp) := by
  rw [steps_of_mkRecord]
  cases hc : canonicalStepsOf sr with
  | nil => right; exact ⟨rfl, by simp⟩
  | cons a t => left; exact ⟨by simp, by simp⟩

theorem legacy_step_numbering (sp : JVal) (k : Nat) (s : Step)
    (h : (normalizeLegacySteps sp)[k]? = some s) :
    s.step_no = .val ((k + 1 : Nat) : Rat) := by
  unfold normalizeLegacySteps at h
  cases hg : (jsTruthy sp && jsTypeofIsObject sp) <;> rw [hg] at h
  · simp at h
  · cases hv : jsGetT sp "steps" <;> rw [hv] at h <;> simp at h
    case arr rows =>
      rw [getElem?_mapIdxFrom] at h
      cases hx : (rows.filter jsIsTruthyObject)[k]? <;> rw [hx] at h <;> simp at h
      rw [← h]
      simp [legacyStep]

/-! ## Claims -/

/-- C1 (code bug in the source): `normalizeTestCase` does not tolerate every
malformed suggestion element. A `null` or `undefined` element makes the
unguarded `item.spec` read of line 104 throw, and an object with
`test_case: null` passes the `typeof null === "object"` check of line 91 so
that the `tc.steps` read of line 92 throws (`none` models the `TypeError`).
A non-null, non-object element does produce the mostly-default record with
empty steps and description that the claim describes. -/
theorem c1_normalizeTestCase_raises_on_null :
    normalizeTestCase .null 0 = none ∧
    normalizeTestCase .undefined 0 = none ∧
    normalizeTestCase (.obj [("test_case", .null)]) 0 = none ∧
    normalizeTestCase (.str "oops") 0 = some (defaultRecAt 0) :=
  ⟨rfl, rfl, rfl, rfl⟩

/-- C4: when the prompt is empty after trimming, `generate` rejects the
request before any provider request is issued: no request body is produced,
the status reports the input-validation error, and `busy`, `showRaw` and
`lastOutput` are left unchanged. -/
theorem c4_generate_empty_prompt_rejected (s : UIState) (raw : String)
    (h : jsTrim raw = "") :
    generate s raw =
      ({ s with statusText := "请输入需求文本后再生成。", statusKind := "err" }, none) ∧
    (generate s raw).2 = none ∧
    (generate s raw).1.busy = s.busy ∧
    (generate s raw).1.showRaw = s.showRaw ∧
    (generate s raw).1.lastOutput = s.lastOutput := by
  have h1 : generate s raw =
      ({ s with statusText := "请输入需求文本后再生成。", statusKind := "err" }, none) := by
    simp [generate, h]
  exact ⟨h1, by rw [h1], by rw [h1], by rw [h1], by rw [h1]⟩

theorem c4_generate_witness :
    jsTrim "  \t " = "" ∧
    (generate ⟨false, false, none, "就绪。", ""⟩ "  \t ").2 = none :=
  ⟨by decide,
   (c4_generate_empty_prompt_rejected ⟨false, false, none, "就绪。", ""⟩ "  \t "
     (by decide)).2.1⟩

/-- C5: for a suggestion whose `spec.steps` is `[{type:"tap"}]` and whose
current schema yields no steps, the normalized record has exactly one step
with `step_no = 1`, `action = "tap"` and empty `test_data` and
`expected_result`. -/
theorem c5_legacy_tap_scenario (item : JVal) (i : Nat) (rec : TestCaseSuggestion)
    (fields : List (String × JVal))
    (h : normalizeTestCase item i = some rec)
    (hcanon : canonicalStepsOf (jsGetT (tcOf item) "steps") = [])
    (hspec : jsGetT item "spec" = .obj fields)
    (hrows : objLookup fields "steps" = .arr [.obj [("type", .str "tap")]]) :
    rec.steps =
      [{ step_no := .val 1, action := "tap", test_data := "", expected_result := "" }] := by
  obtain ⟨sr, sp, h1, h2, rfl⟩ := normalizeTestCase_eq_some h
  have hsr : sr = jsGetT (tcOf item) "steps" := (jsGetT_eq_of_jsGet h1).symm
  have hsp : sp = jsGetT item "spec" := (jsGetT_eq_of_jsGet h2).symm
  rw [steps_of_mkRecord, hsr, hcanon]
  rw [if_neg (by simp)]
  rw [hsp, hspec]
  unfold normalizeLegacySteps
  rw [if_pos (show (jsTruthy (JVal.obj fields) && jsTypeofIsObject (JVal.obj fields)) = true
    from rfl)]
  rw [show jsGetT (.obj fields) "steps" = objLookup fields "steps" from rfl, hrows]
  decide

theorem c5_witness :
    normalizeTestCase c5Item 0 = some c5Rec ∧
    canonicalStepsOf (jsGetT (tcOf c5Item) "steps") = [] ∧
    c5Rec.steps =
      [{ step_no := .val 1, action := "tap", test_data := "", expected_result := "" }] :=
  ⟨rfl, rfl,
   c5_legacy_tap_scenario c5Item 0 c5Rec [("steps", .arr [.obj [("type", .str "tap")]])]
     rfl rfl rfl rfl⟩

/-- C6: fields missing from the nested `test_case` (or an absent `kind` on
the outer object) receive the deterministic defaults: `case_id` becomes the
1-based sequential `TC-GEN-<idx+1>` (the map index acts as the per-call
counter), `module` becomes `"general"`, `priority` `"P1"`, `type`
`"functional"`, `automation_candidate` `false`, `kind` `"demo"`. -/
theorem c6_normalizeTestCase_defaults (item : JVal) (idx : Nat)
    (rec : TestCaseSuggestion) (h : normalizeTestCase item idx = some rec) :
    (jsGetT (tcOf item) "case_id" = .undefined →
      rec.case_id = "TC-GEN-" ++ toString (idx + 1)) ∧
    (jsGetT (tcOf item) "module" = .undefined → rec.module = "general") ∧
    (jsGetT (tcOf item) "priority" = .undefined → rec.priority = "P1") ∧
    (jsGetT (tcOf item) "type" = .undefined → rec.type = "functional") ∧
    (jsGetT (tcOf item) "automation_candidate" = .undefined →
      rec.automation_candidate = false) ∧
    (jsGetT item "kind" = .undefined → rec.kind = "demo") := by
  obtain ⟨sr, sp, h1, h2, rfl⟩ := normalizeTestCase_eq_some h
  refine ⟨fun hc => ?_, fun hc => ?_, fun hc => ?_, fun hc => ?_, fun hc => ?_,
    fun hc => ?_⟩ <;>
    simp [mkRecord, hc, jsOr, jsTruthy, jsToString]

theorem c6_witness :
    normalizeTestCase (.obj []) 0 = some (defaultRecAt 0) ∧
    jsGetT (tcOf (.obj [])) "case_id" = .undefined ∧
    (defaultRecAt 0).case_id = "TC-GEN-" ++ toString (0 + 1) ∧
    (defaultRecAt 0).kind = "demo" :=
  ⟨rfl, rfl,
   (c6_normalizeTestCase_defaults (.obj []) 0 (defaultRecAt 0) rfl).1 rfl,
   (c6_normalizeTestCase_defaults (.obj []) 0 (defaultRecAt 0) rfl).2.2.2.2.2 rfl⟩

/-- C7: the legacy-derived steps are used only as a fallback — whenever the
current schema yields at least one valid step the normalized record's steps
are the canonical ones and the legacy steps are ignored; only when the
canonical step list is empty does the record carry the legacy steps. -/
theorem c7_legacy_only_fallback (item : JVal) (idx : Nat)
    (rec : TestCaseSuggestion) (h : normalizeTestCase item idx = some rec) :
    (canonicalStepsOf (jsGetT (tcOf item) "steps") ≠ [] →
      rec.steps = canonicalStepsOf (jsGetT (tcOf item) "steps")) ∧
    (canonicalStepsOf (jsGetT (tcOf item) "steps") = [] →
      rec.steps = normalizeLegacySteps (jsGetT item "spec")) := by
  obtain ⟨sr, sp, h1, h2, rfl⟩ := normalizeTestCase_eq_some h
  rw [jsGetT_eq_of_jsGet h1, jsGetT_eq_of_jsGet h2]
  rcases steps_eq_canonical_or_legacy item idx sr sp with ⟨hne, hs⟩ | ⟨heq, hs⟩
  · exact ⟨fun _ => hs, fun hc => absurd hc hne⟩
  · exact ⟨fun hne => absurd heq hne, fun _ => hs⟩

theorem c7_witness :
    normalizeTestCase c7Item 0 = some c7Rec ∧
    canonicalStepsOf (jsGetT (tcOf c7Item) "steps") ≠ [] ∧
    c7Rec.steps = canonicalStepsOf (jsGetT (tcOf c7Item) "steps") :=
  ⟨rfl, by decide, (c7_legacy_only_fallback c7Item 0 c7Rec rfl).1 (by decide)⟩

/-- C9 (implicit): `title` falls back to the outer `item.title` when the
nested `test_case` has none; `description`, `tags` and `kind` are always read
from the outer suggestion object (the formulas below depend only on outer
lookups); `tags` is coerced element-wise to strings with empty strings
dropped, and a non-array `tags` yields the empty list. -/
theorem c9_outer_fields (item : JVal) (idx : Nat) (rec : TestCaseSuggestion)
    (h : normalizeTestCase item idx = some rec) :
    (jsGetT (tcOf item) "title" = .undefined →
      rec.title = jsToString (jsOr (jsGetT item "title")
        (.str ("用例 " ++ toString (idx + 1))))) ∧
    rec.description = jsToString (jsOr (jsGetT item "description") (.str "")) ∧
    rec.kind = jsToString (jsOr (jsGetT item "kind") (.str "demo")) ∧
    (∀ xs, jsGetT item "tags" = .arr xs →
      rec.tags = (xs.map jsToString).filter (fun s => s != "")) ∧
    ((∀ xs, jsGetT item "tags" ≠ .arr xs) → rec.tags = []) := by
  obtain ⟨sr, sp, h1, h2, rfl⟩ := normalizeTestCase_eq_some h
  refine ⟨fun ht => ?_, ?_, ?_, fun xs hxs => ?_, fun hno => ?_⟩
  · simp [mkRecord, ht, jsOr, jsTruthy]
  · simp [mkRecord]
  · simp [mkRecord]
  · simp [mkRecord, strListOf, hxs]
  · have hnil : strListOf (jsGetT item "tags") = [] := by
      cases hv : jsGetT item "tags"
      case arr xs => exact absurd hv (hno xs)
      all_goals simp [strListOf]
    simpa [mkRecord] using hnil

theorem c9_witness :
    normalizeTestCase c9Item 0 = some c9Rec ∧
    jsGetT (tcOf c9Item) "title" = .undefined ∧
    c9Rec.title = jsToString (jsOr (jsGetT c9Item "title")
      (.str ("用例 " ++ toString (0 + 1)))) ∧
    c9Rec.description = jsToString (jsOr (jsGetT c9Item "description") (.str "")) ∧
    c9Rec.tags = (([.str "t", .str "", .num (.val 3)] : List JVal).map jsToString).filter
      (fun s => s != "") :=
  ⟨rfl, rfl,
   (c9_outer_fields c9Item 0 c9Rec rfl).1 rfl,
   (c9_outer_fields c9Item 0 c9Rec rfl).2.1,
   (c9_outer_fields c9Item 0 c9Rec rfl).2.2.2.1 _ rfl⟩

/-- C10 (implicit): a current-schema step keeps `Number(step_no)` when its
`step_no` is truthy — even when it does not match its position — and receives
its 1-based position among the object-shaped rows (taken before the
empty-action filter) when `step_no` is absent or falsy. -/
theorem c10_canonical_step_no (rows : List JVal) (k : Nat) (x : JVal)
    (hx : (rows.filter jsIsTruthyObject)[k]? = some x) :
    canonicalStepsOf (.arr rows) =
      (mapIdxFrom mkCanonStep 0 (rows.filter jsIsTruthyObject)).filter
        (fun s => s.action != "") ∧
    (mapIdxFrom mkCanonStep 0 (rows.filter jsIsTruthyObject))[k]? =
      some (mkCanonStep k x) ∧
    (jsTruthy (jsGetT x "step_no") = false →
      (mkCanonStep k x).step_no = .val ((k + 1 : Nat) : Rat)) ∧
    (jsTruthy (jsGetT x "step_no") = true →
      (mkCanonStep k x).step_no = jsToNumber (jsGetT x "step_no")) := by
  refine ⟨rfl, ?_, fun hf => ?_, fun ht => ?_⟩
  · rw [getElem?_mapIdxFrom, hx]; simp
  · simp [mkCanonStep, jsOr, hf, jsToNumber]
  · simp [mkCanonStep, jsOr, ht]

theorem c10_witness :
    (c10Rows.filter jsIsTruthyObject)[0]? = some c10Row ∧
    jsTruthy (jsGetT c10Row "step_no") = true ∧
    (mkCanonStep 0 c10Row).step_no = jsToNumber (jsGetT c10Row "step_no") :=
  ⟨rfl, rfl, (c10_canonical_step_no c10Rows 0 c10Row rfl).2.2.2 rfl⟩

/-- C2 counterexample: at `c2Item` (one canonical step carrying
`step_no: 5`) the surviving step list is not numbered `1..n` — its only step
has `step_no = 5`. -/
theorem c2_counterexample :
    normalizeTestCase c2Item 0 = some c2Rec ∧
    ¬ (∀ (k : Nat) (s : Step), c2Rec.steps[k]? = some s → s.step_no = .val ((k + 1 : Nat) : Rat)) := by
  refine ⟨rfl, fun hall => ?_⟩
  have h5 := hall 0
    { step_no := .val 5, action := "a", test_data := "", expected_result := "" } (by decide)
  exact absurd h5 (by decide)

/-- C2 amended: canonical-schema steps are not re-numbered after the
empty-action drop (a truthy `step_no` is kept as coerced, a falsy one gets
its pre-filter position); what holds for all shapes is that every step of the
normalized record either has a non-empty action (the canonical path) or is
numbered by its 1-based position (the legacy path, numbered sequentially). -/
theorem c2_amended_step_invariant (item : JVal) (idx : Nat)
    (rec : TestCaseSuggestion) (h : normalizeTestCase item idx = some rec)
    (k : Nat) (s : Step) (hs : rec.steps[k]? = some s) :
    s.action ≠ "" ∨ s.step_no = .val ((k + 1 : Nat) : Rat) := by
  obtain ⟨sr, sp, h1, h2, rfl⟩ := normalizeTestCase_eq_some h
  rcases steps_eq_canonical_or_legacy item idx sr sp with ⟨_, hsteps⟩ | ⟨_, hsteps⟩
  · rw [hsteps] at hs
    exact .inl (action_of_mem_canonical (List.getElem?_mem hs)).1
  · rw [hsteps] at hs
    exact .inr (legacy_step_numbering sp k s hs)

theorem c2_amended_witness :
    normalizeTestCase c2wItem 0 = some c2wRec ∧
    c2wRec.steps[0]? = some
      { step_no := .val 1, action := "tap", test_data := "", expected_result := "" } ∧
    (({ step_no := .val 1, action := "tap", test_data := "",
        expected_result := "" } : Step).action ≠ "" ∨
     ({ step_no := .val 1, action := "tap", test_data := "",
        expected_result := "" } : Step).step_no = .val ((0 + 1 : Nat) : Rat)) :=
  ⟨rfl, rfl, c2_amended_step_invariant c2wItem 0 c2wRec rfl 0 _ rfl⟩

/-- C8 counterexample: at `c8Item` the legacy step `{message: " "}` yields an
action that is empty after trimming, yet the step is not dropped. -/
theorem c8_counterexample :
    normalizeTestCase c8Item 0 = some c8Rec ∧
    ∃ s ∈ c8Rec.steps, jsTrim s.action = "" := by
  refine ⟨rfl,
    ⟨{ step_no := .val 1, action := " ", test_data := "", expected_result := "" },
     ?_, ?_⟩⟩
  · decide
  · decide

/-- C8 amended: the drop-empty-after-trimming rule applies only to
current-schema steps — every canonical-path step has a non-empty, already
trimmed action — while legacy-derived steps are taken unfiltered (their
action may be whitespace-only or even empty). -/
theorem c8_amended_canonical_only_filter (item : JVal) (idx : Nat)
    (rec : TestCaseSuggestion) (h : normalizeTestCase item idx = some rec) :
    (∀ s ∈ canonicalStepsOf (jsGetT (tcOf item) "steps"),
       s.action ≠ "" ∧ jsTrim s.action = s.action) ∧
    (rec.steps = canonicalStepsOf (jsGetT (tcOf item) "steps") ∨
     rec.steps = normalizeLegacySteps (jsGetT item "spec")) := by
  obtain ⟨sr, sp, h1, h2, rfl⟩ := normalizeTestCase_eq_some h
  rw [jsGetT_eq_of_jsGet h1, jsGetT_eq_of_jsGet h2]
  refine ⟨fun s hs => action_of_mem_canonical hs, ?_⟩
  rcases steps_eq_canonical_or_legacy item idx sr sp with ⟨_, hsteps⟩ | ⟨_, hsteps⟩
  · exact .inl hsteps
  · exact .inr hsteps

theorem c8_amended_witness :
    normalizeTestCase c8wItem 0 = some c8wRec ∧
    (∀ s ∈ canonicalStepsOf (jsGetT (tcOf c8wItem) "steps"),
       s.action ≠ "" ∧ jsTrim s.action = s.action) :=
  ⟨rfl, (c8_amended_canonical_only_filter c8wItem 0 c8wRec rfl).1⟩

/-- C3 counterexample: normalization is not idempotent — re-normalizing the
canonical output of `c3Item` (whose nested `case_id` is `"X"`) yields a
different record (`case_id` drifts to `"TC-GEN-1"`), because the canonical
record is flat while the normalizer reads the nested `test_case`. -/
theorem c3_counterexample :
    (normalizeTestCase c3Item 0).bind (fun r => normalizeTestCase (tcsToJVal r) 0) ≠
      normalizeTestCase c3Item 0 := by decide

theorem map_jsToString_comp_str (l : List String) :
    List.map (jsToString ∘ JVal.str) l = l := by
  have h : (jsToString ∘ JVal.str) = fun s => s := funext fun s => rfl
  rw [h, List.map_id']

theorem normalizeTestCase_tcsToJVal (r : TestCaseSuggestion) (idx : Nat) :
    normalizeTestCase (tcsToJVal r) idx = some (renorm idx r) := by
  have h0 : normalizeTestCase (tcsToJVal r) idx =
      some (mkRecord (tcsToJVal r) idx .undefined .undefined) := rfl
  rw [h0]
  refine congrArg some ?_
  have htc : tcOf (tcsToJVal r) = .obj [] := rfl
  have hti : jsGetT (tcsToJVal r) "title" = .str r.title := rfl
  have hde : jsGetT (tcsToJVal r) "description" = .str r.description := rfl
  have htg : jsGetT (tcsToJVal r) "tags" = .arr (r.tags.map .str) := rfl
  have hki : jsGetT (tcsToJVal r) "kind" = .str r.kind := rfl
  unfold mkRecord renorm
  rw [htc, hti, hde, htg, hki]
  by_cases ht : r.title = "" <;> by_cases hd : r.description = "" <;>
    by_cases hk : r.kind = "" <;>
    simp [jsOr, jsTruthy, jsToString, jsGetT, jsGet, objLookup, objFind, strListOf,
      List.map_map, map_jsToString_comp_str, canonicalStepsOf, normalizeLegacySteps,
      jsTypeofIsObject, ht, hd, hk]

theorem renorm_idem (idx : Nat) (r : TestCaseSuggestion) :
    renorm idx (renorm idx r) = renorm idx r := by
  have htags : (r.tags.filter (fun s => s != "")).filter (fun s => s != "") =
      r.tags.filter (fun s => s != "") := by
    rw [List.filter_filter]
    simp
  unfold renorm
  by_cases ht : r.title = "" <;> by_cases hk : r.kind = "" <;> simp [ht, hk, htags]

/-- C3 amended: normalization is not idempotent on its own output — the
canonical record is flat while the normalizer reads the nested `test_case`,
so one re-normalization resets every `test_case`-derived field to its default
(keeping `title`, `description`, `tags`, `kind`); the result of that first
re-normalization is a fixed point: a second re-normalization reproduces it
byte for byte. -/
theorem c3_amended_stabilizes (item : JVal) (idx : Nat)
    (rec : TestCaseSuggestion) (_h : normalizeTestCase item idx = some rec) :
    normalizeTestCase (tcsToJVal rec) idx = some (renorm idx rec) ∧
    normalizeTestCase (tcsToJVal (renorm idx rec)) idx = some (renorm idx rec) := by
  refine ⟨normalizeTestCase_tcsToJVal rec idx, ?_⟩
  rw [normalizeTestCase_tcsToJVal, renorm_idem]

theorem c3_amended_witness :
    normalizeTestCase c3Item 0 = some c3Rec ∧
    normalizeTestCase (tcsToJVal c3Rec) 0 = some (renorm 0 c3Rec) ∧
    normalizeTestCase (tcsToJVal (renorm 0 c3Rec)) 0 = some (renorm 0 c3Rec) :=
  ⟨rfl, (c3_amended_stabilizes c3Item 0 c3Rec rfl).1,
   (c3_amended_stabilizes c3Item 0 c3Rec rfl).2⟩

end Laitest
